import Mathlib

/-!
Shallow embedding of `src/internal/p4/depotfile.go` (package p4 of
p4harmonize): the streaming parser/aggregator `runAndParseDepotFiles`, the
depot-prefix resolver `getDepotPrefix`, and the case-insensitive sorter
`DepotFileCaseInsensitive`.

Modelling conventions:
* Go strings are modelled as `List Char`. The wire protocol is ASCII, where
  Go's byte indexing (`line[4:]`, `line[14:]`, ...) coincides with character
  indexing.
* The producer goroutine, the pipe and the scanner are modelled by their
  observable interface: the command's standard output arrives as a list of
  lines (`bufio.ScanLines`) together with a flag saying whether the stream
  ends in a line terminator, and the producer's completion error
  (`bs.Cmd(...).RunErr()`) as an `Option`. The external `p.StreamDepth()`
  lookup is a parameter (`Except` of an error or the depth).
* `r.CloseWithError(e)` stores the first error `e` on the pipe (later calls
  never overwrite it), and Go delivers that error to the pipe's *writes*:
  the reader's own subsequent reads fail with `io.ErrClosedPipe`. So after
  an abort the scanner's next read makes `s.Err()` report the constant
  closed-pipe error, never the stored protocol message — unless the
  aborting line is the stream's final token and the stream does not end in
  a newline: `bufio.Scanner` emits such a token only after it has already
  recorded EOF, never reads again, and `s.Err()` stays nil, making the
  abort invisible. Lines drained from the scanner's buffer after a visible
  abort are unobservable (the records are discarded), so the loop is
  modelled as stopping at the first abort.
* Errors are modelled as their rendered Go message text (`fmt.Errorf`
  formatting, `%w` wrapping by concatenation).
-/

namespace P4

/-- Go string, as a character list (bytes of an ASCII string). -/
abbrev GoStr := List Char

/-- Characters of a Lean string literal, used to write Go string literals. -/
def str (s : String) : GoStr := s.data

/-- Whitespace as recognized by Go's `unicode.IsSpace` restricted to ASCII
(the characters `strings.TrimSpace` trims on protocol lines). -/
def goIsSpace (c : Char) : Bool :=
  c = ' ' || c = '\t' || c = '\n' || c = Char.ofNat 11 || c = Char.ofNat 12 || c = '\r'

/-- Go `strings.TrimSpace`: drop whitespace from both ends. -/
def trimSpace (s : GoStr) : GoStr :=
  ((s.dropWhile goIsSpace).reverse.dropWhile goIsSpace).reverse

/-- Go `strings.HasPrefix s pre`. -/
def hasPrefix (s pre : GoStr) : Bool :=
  pre.isPrefixOf s

/-- Go `strings.Contains s sub`: `sub` occurs contiguously in `s`. -/
def containsSub : GoStr → GoStr → Bool
  | [], sub => sub.isEmpty
  | c :: t, sub => sub.isPrefixOf (c :: t) || containsSub t sub

/-- Go `strings.TrimPrefix s pre`: remove `pre` when `s` begins with it,
otherwise return `s` unchanged. -/
def trimPrefix (s pre : GoStr) : GoStr :=
  if hasPrefix s pre then s.drop pre.length else s

/-- Go `strings.ToLower` (ASCII case folding suffices for the model). -/
def toLowerStr (s : GoStr) : GoStr :=
  s.map Char.toLower

/-- Go `<` on strings: lexicographic comparison. -/
def ltStr : GoStr → GoStr → Bool
  | [], [] => false
  | [], _ :: _ => true
  | _ :: _, [] => false
  | a :: s, b :: t => if a < b then true else if b < a then false else ltStr s t

/-- Lexicographic `<=` on strings (used to state the ordering claim). -/
def leStr : GoStr → GoStr → Bool
  | [], _ => true
  | _ :: _, [] => false
  | a :: s, b :: t => if a < b then true else if b < a then false else leStr s t

/-- Go `strings.Index s "/"` for the found case: index of the first `'/'`. -/
def slashIdx : GoStr → Option Nat
  | [] => none
  | c :: t => if c = '/' then some 0 else (slashIdx t).map (· + 1)

/-- The index loop of `getDepotPrefix`:
`for depth > 0 { i += strings.Index(line[i:], "/"); i++; depth-- }`.
When no `'/'` is found, `strings.Index` returns `-1` and the net effect on
`i` is zero. -/
def prefixScan (line : GoStr) (i : Nat) : Nat → Nat
  | 0 => i
  | d + 1 =>
    match slashIdx (line.drop i) with
    | some n => prefixScan line (i + n + 1) d
    | none => prefixScan line i d

/-- Go `getDepotPrefix(line, depth)`: the stream prefix of `line` at stream
depth `depth`, or a format error when `line` does not begin with `"//"`. -/
def getDepotPrefix (line : GoStr) (depth : Nat) : Except GoStr GoStr :=
  if hasPrefix line (str "//") = false then
    .error (str "line \"" ++ line ++ str "\" does not begin with \"//\"")
  else
    .ok (line.take (prefixScan line 2 depth))

/-- Go `type DepotFile struct { Path, Action, CL, Type string }`.
The Go field `Type` is spelled `Typ` (`Type` is a Lean keyword). -/
structure DepotFile where
  Path : GoStr
  Action : GoStr
  CL : GoStr
  Typ : GoStr
deriving DecidableEq

/-- The Go zero value `DepotFile{}`. -/
def DepotFile.empty : DepotFile := ⟨[], [], [], []⟩

/-- The scanner loop's mutable state: the accumulated records `out`, the
in-progress record `cur`, and the resolved depot prefix `pfx` (the Go
variable `prefix`; empty = not yet resolved). -/
structure ScanState where
  out : List DepotFile
  cur : DepotFile
  pfx : GoStr
deriving DecidableEq

/-- The state at loop entry: `out` empty, `cur` the zero value, no prefix. -/
def initialState : ScanState := ⟨[], DepotFile.empty, []⟩

/-- One iteration of the scanner loop of `runAndParseDepotFiles`, on the
already-trimmed line. Mirrors the Go `switch` exactly: blank line = record
boundary; the marker check; then the `depotFile`, `action`, `change`, `type`
cases at their fixed value offsets 14, 10, 10, 8; any other tag falls through
with no effect. -/
def scanStep (d : Nat) (st : ScanState) (line : GoStr) : Except GoStr ScanState :=
  if line.length = 0 then
    .ok { out := if st.cur.Path.length ≠ 0 then st.out ++ [st.cur] else st.out
          cur := DepotFile.empty
          pfx := st.pfx }
  else if line.length < 5 ∨ hasPrefix line (str "... ") = false then
    .error (str "expected \"... <tag>\", but got: " ++ line)
  else if hasPrefix (line.drop 4) (str "depotFile") = true then
    if st.pfx.length = 0 then
      match getDepotPrefix (trimSpace (line.drop 14)) d with
      | .error e => .error (str "error parsing depot prefix: " ++ e)
      | .ok p =>
        .ok { st with pfx := p
                      cur := { st.cur with Path := trimPrefix (trimSpace (line.drop 14)) p } }
    else
      .ok { st with cur := { st.cur with Path := trimPrefix (trimSpace (line.drop 14)) st.pfx } }
  else if hasPrefix (line.drop 4) (str "action") = true then
    .ok { st with cur := { st.cur with Action := trimSpace (line.drop 10) } }
  else if hasPrefix (line.drop 4) (str "change") = true then
    .ok { st with cur := { st.cur with CL := trimSpace (line.drop 10) } }
  else if hasPrefix (line.drop 4) (str "type") = true then
    .ok { st with cur := { st.cur with Typ := trimSpace (line.drop 8) } }
  else
    .ok st

/-- One scanned line: Go first trims it (`line := strings.TrimSpace(s.Text())`),
then runs the switch. -/
def scanLine (d : Nat) (st : ScanState) (rawLine : GoStr) : Except GoStr ScanState :=
  scanStep d st (trimSpace rawLine)

/-- The outcome of driving the scanner loop over the whole line stream:
either the loop ran to completion, or `r.CloseWithError` was called for the
first time at the head of `rest` (a protocol or depot-prefix abort), with
`st` the loop state at that point — both aborting branches leave the state
unchanged (the depot-prefix branch `break`s before assigning `Path`). -/
inductive ScanResult where
  | ok (st : ScanState)
  | aborted (st : ScanState) (rest : List GoStr)

/-- The scanner loop over the whole line stream, stopping at the first
abort (what happens to later buffered lines is unobservable). -/
def scanLines (d : Nat) : ScanState → List GoStr → ScanResult
  | st, [] => .ok st
  | st, l :: ls =>
    match scanLine d st l with
    | .error _ => .aborted st (l :: ls)
    | .ok st' => scanLines d st' ls

/-- What `s.Err()` reports after the loop. Go's `PipeReader.CloseWithError`
delivers its error to the pipe's writes; the reader's own subsequent reads
fail with `io.ErrClosedPipe`, so a visible abort surfaces as that constant
error, never as the stored protocol message. An abort at the stream's final
line, when the stream does not end in a newline, is invisible:
`bufio.Scanner` emits such a final token only after it has already recorded
EOF, so it never reads again and `Err()` stays nil. -/
def scanErr (r : ScanResult) (finalNewline : Bool) : Option GoStr :=
  match r with
  | .ok _ => none
  | .aborted _ rest =>
    if rest.length = 1 ∧ finalNewline = false then none
    else some (str "io: read/write on closed pipe")

/-- The loop state held when the loop ends with `s.Err()` nil (on an
invisible abort, the aborting line changed nothing). -/
def scanFinalState (r : ScanResult) : ScanState :=
  match r with
  | .ok st => st
  | .aborted st _ => st

/-- Go `DepotFileCaseInsensitive.Less i j`: compare lowercased paths. -/
def lessPath (a b : DepotFile) : Bool :=
  ltStr (toLowerStr a.Path) (toLowerStr b.Path)

/-- The sort order established by `sort.Sort(DepotFileCaseInsensitive(out))`:
`a` may precede `b` iff `!Less(b, a)`. -/
def depotFileLe (a b : DepotFile) : Prop :=
  lessPath b a = false

instance : DecidableRel depotFileLe :=
  fun a b => decEq (lessPath b a) false

/-- Go `sort.Sort(DepotFileCaseInsensitive(out))`. Go's unstable sort is
modelled by insertion sort: both produce an output sorted by the same `Less`,
and no claim depends on the (unspecified) relative order of ties. -/
def sortDepotFiles (l : List DepotFile) : List DepotFile :=
  List.insertionSort depotFileLe l

/-- The tail of the orchestrator, after the scanner loop: the scanner's
error (`s.Err()`, wrapped) is checked first and returns before the producer
is even joined; then the producer's completion error (wrapped); only with
both clean are the sorted records returned. -/
def finishRun (r : ScanResult) (finalNewline : Bool) (cmdErr : Option GoStr) :
    Except GoStr (List DepotFile) :=
  match scanErr r finalNewline with
  | some e => .error (str "error scanning for files: " ++ e)
  | none =>
    match cmdErr with
    | some e => .error (str "error listing files: " ++ e)
    | none => .ok (sortDepotFiles (scanFinalState r).out)

/-- Go `(p *P4) runAndParseDepotFiles(cmd)`. The external collaborators enter
as parameters: `streamDepthRes` is what `p.StreamDepth()` returned,
`outputLines` the lines the command wrote to the pipe, `finalNewline`
whether that stream ended in a line terminator, `cmdErr` the producer's
completion error. Mirrors the orchestration: the `-ztag` flag check, the
depth lookup, the scanner loop, then `finishRun`. -/
def runAndParseDepotFiles (cmd : GoStr) (streamDepthRes : Except GoStr Nat)
    (outputLines : List GoStr) (finalNewline : Bool) (cmdErr : Option GoStr) :
    Except GoStr (List DepotFile) :=
  if containsSub cmd (str "-ztag") = false ∧ containsSub cmd (str "-z tag") = false then
    .error (str "missing \"-z tag\" in cmd: " ++ cmd)
  else
    match streamDepthRes with
    | .error e => .error e
    | .ok streamDepth =>
      finishRun (scanLines streamDepth initialState outputLines) finalNewline cmdErr

/-- Go slice-expression bounds for the field-interpreter switch: `line[k:]`
panics exactly when `k > len(line)`. For each branch the value offset that
the branch slices is compared against the line's length (the guards slice
`line[4:]`, in bounds once `len >= 5`). `true` = the switch would panic. -/
def sliceOOB (line : GoStr) : Bool :=
  if line.length = 0 then false
  else if line.length < 5 ∨ hasPrefix line (str "... ") = false then false
  else if hasPrefix (line.drop 4) (str "depotFile") = true then decide (line.length < 14)
  else if hasPrefix (line.drop 4) (str "action") = true then decide (line.length < 10)
  else if hasPrefix (line.drop 4) (str "change") = true then decide (line.length < 10)
  else if hasPrefix (line.drop 4) (str "type") = true then decide (line.length < 8)
  else false

/-- Modelled from the spec: the first `d` slash-terminated segments of `s`
("the prefix consisting of `//` followed by the first `D` slash-terminated
segments", with the leading `//` already removed from `s`). Stated
independently of `getDepotPrefix` to compare the two. -/
def specSegs : Nat → GoStr → GoStr
  | 0, _ => []
  | d + 1, s =>
    match slashIdx s with
    | some n => s.take (n + 1) ++ specSegs d (s.drop (n + 1))
    | none => []

/-- A trimmed line that the switch recognizes as a `depotFile` field line. -/
def isDepotFileLine (t : GoStr) : Bool :=
  decide (5 ≤ t.length) && hasPrefix t (str "... ") && hasPrefix (t.drop 4) (str "depotFile")

/-- The raw depot path a recognized `depotFile` line carries
(`raw := strings.TrimSpace(line[14:])`). -/
def rawOf (t : GoStr) : GoStr := trimSpace (t.drop 14)

/-- Spec-side counter for the record-boundary invariant: how many blank-line
boundaries of the stream close a record whose `Path` is non-empty at that
boundary. -/
def boundaryEmits (d : Nat) : ScanState → List GoStr → Nat
  | _, [] => 0
  | st, l :: ls =>
    match scanLine d st l with
    | .error _ => 0
    | .ok st' =>
      (if trimSpace l = [] ∧ st.cur.Path ≠ [] then 1 else 0) + boundaryEmits d st' ls

/-! ### Helper lemmas -/

theorem ltStr_asymm : ∀ {a b : GoStr}, ltStr a b = true → ltStr b a = false
  | [], [], h => by simp [ltStr] at h
  | [], _ :: _, _ => by simp [ltStr]
  | _ :: _, [], h => by simp [ltStr] at h
  | a :: s, b :: t, h => by
    by_cases hab : a < b
    · simp [ltStr, hab, lt_asymm hab]
    · by_cases hba : b < a
      · simp [ltStr, hab, hba] at h
      · simp only [ltStr, hab, hba, if_false] at h ⊢
        exact ltStr_asymm h

theorem ltStr_nil_right : ∀ (b : GoStr), ltStr b [] = false
  | [] => rfl
  | _ :: _ => rfl

theorem ltStr_trans : ∀ {a b c : GoStr},
    ltStr a b = true → ltStr b c = true → ltStr a c = true
  | [], b, [], _, h2 => by rw [ltStr_nil_right b] at h2; exact Bool.noConfusion h2
  | [], _, _ :: _, _, _ => by simp [ltStr]
  | _ :: _, [], _, h1, _ => by simp [ltStr] at h1
  | _ :: _, _ :: _, [], _, h2 => by simp [ltStr] at h2
  | x :: s, y :: t, z :: u, h1, h2 => by
    simp only [ltStr] at h1 h2 ⊢
    by_cases hxy : x < y
    · by_cases hyz : y < z
      · simp [lt_trans hxy hyz]
      · by_cases hzy : z < y
        · simp [hyz, hzy] at h2
        · have : y = z := le_antisymm (not_lt.mp hzy) (not_lt.mp hyz)
          subst this
          simp [hxy]
    · by_cases hyx : y < x
      · simp [hxy, hyx] at h1
      · have : x = y := le_antisymm (not_lt.mp hyx) (not_lt.mp hxy)
        subst this
        simp only [hxy, hyx, if_false] at h1 ⊢
        by_cases hxz : x < z
        · simp [hxz]
        · by_cases hzx : z < x
          · simp [hxz, hzx] at h2
          · simp only [hxz, hzx, if_false] at h2 ⊢
            exact ltStr_trans h1 h2

theorem eq_of_ltStr_false : ∀ {a b : GoStr},
    ltStr a b = false → ltStr b a = false → a = b
  | [], [], _, _ => rfl
  | [], _ :: _, h1, _ => by simp [ltStr] at h1
  | _ :: _, [], _, h2 => by simp [ltStr] at h2
  | a :: s, b :: t, h1, h2 => by
    by_cases hab : a < b
    · simp [ltStr, hab] at h1
    · by_cases hba : b < a
      · simp [ltStr, hba] at h2
      · have hss : a = b := le_antisymm (not_lt.mp hba) (not_lt.mp hab)
        subst hss
        simp only [ltStr, hab, hba, if_false] at h1 h2
        rw [eq_of_ltStr_false h1 h2]

theorem leStr_eq_not_ltStr : ∀ (a b : GoStr), leStr a b = !ltStr b a
  | [], [] => rfl
  | [], _ :: _ => rfl
  | _ :: _, [] => rfl
  | a :: s, b :: t => by
    by_cases hab : a < b
    · simp [leStr, ltStr, hab, lt_asymm hab]
    · by_cases hba : b < a
      · simp [leStr, ltStr, hab, hba]
      · simp only [leStr, ltStr, hab, hba, if_false]
        exact leStr_eq_not_ltStr s t

instance : IsTotal DepotFile depotFileLe :=
  ⟨fun a b => by
    unfold depotFileLe
    cases h : lessPath b a
    · exact Or.inl rfl
    · exact Or.inr (ltStr_asymm h)⟩

instance : IsTrans DepotFile depotFileLe :=
  ⟨fun a b c h1 h2 => by
    unfold depotFileLe lessPath at h1 h2 ⊢
    cases hca : ltStr (toLowerStr c.Path) (toLowerStr a.Path)
    · rfl
    · exfalso
      cases hab : ltStr (toLowerStr a.Path) (toLowerStr b.Path)
      · have : toLowerStr a.Path = toLowerStr b.Path := eq_of_ltStr_false hab h1
        rw [this] at hca
        rw [hca] at h2
        exact Bool.noConfusion h2
      · have := ltStr_trans hca hab
        rw [this] at h2
        exact Bool.noConfusion h2⟩

theorem scanStep_blank (d : Nat) (st : ScanState) (line : GoStr) (h : line = []) :
    scanStep d st line =
      .ok { out := if st.cur.Path.length ≠ 0 then st.out ++ [st.cur] else st.out
            cur := DepotFile.empty
            pfx := st.pfx } := by
  subst h
  rfl

theorem scanStep_malformed (d : Nat) (st : ScanState) (line : GoStr)
    (hne : line ≠ []) (hbad : line.length < 5 ∨ hasPrefix line (str "... ") = false) :
    scanStep d st line = .error (str "expected \"... <tag>\", but got: " ++ line) := by
  have hl : ¬ line.length = 0 := by simpa [List.length_eq_zero] using hne
  simp [scanStep, hl, hbad]

/-- On a non-blank line an `ok` step never changes `out`: records are appended
only at blank-line boundaries. -/
theorem scanStep_out_nonblank (d : Nat) (st : ScanState) (line : GoStr) (st' : ScanState)
    (hne : line ≠ []) (h : scanStep d st line = .ok st') : st'.out = st.out := by
  have hl : ¬ line.length = 0 := by simpa [List.length_eq_zero] using hne
  unfold scanStep at h
  rw [if_neg hl] at h
  split at h
  · exact Except.noConfusion h
  · split at h
    · split at h
      · split at h
        · exact Except.noConfusion h
        · cases h; rfl
      · cases h; rfl
    · split at h
      · cases h; rfl
      · split at h
        · cases h; rfl
        · split at h
          · cases h; rfl
          · cases h; rfl

/-- The exact growth of `out` in one `ok` step: one record exactly at a blank
line whose in-progress record has a non-empty `Path`, none otherwise. -/
theorem scanStep_out_length (d : Nat) (st : ScanState) (line : GoStr) (st' : ScanState)
    (h : scanStep d st line = .ok st') :
    st'.out.length = st.out.length + (if line = [] ∧ st.cur.Path ≠ [] then 1 else 0) := by
  by_cases hb : line = []
  · rw [scanStep_blank d st line hb] at h
    cases h
    by_cases hp : st.cur.Path = []
    · simp [hb, hp]
    · have hp' : st.cur.Path.length ≠ 0 := by simpa [List.length_eq_zero] using hp
      simp [hb, hp, hp']
  · rw [scanStep_out_nonblank d st line st' hb h]
    simp [hb]

/-- Once the depot prefix is resolved it never changes. -/
theorem scanStep_pfx_stable (d : Nat) (st : ScanState) (line : GoStr) (st' : ScanState)
    (hp : st.pfx ≠ []) (h : scanStep d st line = .ok st') : st'.pfx = st.pfx := by
  have hp0 : ¬ st.pfx.length = 0 := by simpa [List.length_eq_zero] using hp
  unfold scanStep at h
  repeat' split at h
  all_goals
    first
      | exact Except.noConfusion h
      | (cases h; rfl)

/-- The only step that changes the stored prefix: it was unresolved, the line
is a recognized `depotFile` line, and the new prefix is what
`getDepotPrefix` computed from that line's raw path. -/
theorem scanStep_pfx_set (d : Nat) (st : ScanState) (line : GoStr) (st' : ScanState)
    (h : scanStep d st line = .ok st') (hne : st'.pfx ≠ st.pfx) :
    st.pfx = [] ∧ isDepotFileLine line = true ∧
      getDepotPrefix (rawOf line) d = .ok st'.pfx := by
  unfold scanStep at h
  split at h
  · cases h; exact absurd rfl hne
  · rename_i hlen
    split at h
    · exact Except.noConfusion h
    · rename_i hbad
      split at h
      · rename_i htag
        split at h
        · rename_i hp0
          split at h
          · exact Except.noConfusion h
          · rename_i p hok
            cases h
            refine ⟨List.length_eq_zero.mp hp0, ?_, hok⟩
            push_neg at hbad
            simp [isDepotFileLine, hbad.1, hbad.2, htag]
        · cases h; exact absurd rfl hne
      · split at h
        · cases h; exact absurd rfl hne
        · split at h
          · cases h; exact absurd rfl hne
          · split at h
            · cases h; exact absurd rfl hne
            · cases h; exact absurd rfl hne

/-- A `depotFile` line seen after the prefix is resolved: no error, and the
record's `Path` becomes the raw path with the stored prefix stripped. -/
theorem scanStep_depotFile_subsequent (d : Nat) (st : ScanState) (line : GoStr)
    (hp : st.pfx ≠ []) (hl : isDepotFileLine line = true) :
    scanStep d st line =
      .ok { st with cur := { st.cur with Path := trimPrefix (rawOf line) st.pfx } } := by
  have hp0 : ¬ st.pfx.length = 0 := by simpa [List.length_eq_zero] using hp
  simp only [isDepotFileLine, Bool.and_eq_true, decide_eq_true_eq] at hl
  obtain ⟨⟨h5, hm⟩, htag⟩ := hl
  have hl0 : ¬ line.length = 0 := by omega
  have hb : ¬ (line.length < 5 ∨ hasPrefix line (str "... ") = false) := by
    push_neg
    exact ⟨by omega, by simp [hm]⟩
  simp [scanStep, hl0, hb, htag, hp0, rawOf]

/-- A recognized-marker line whose tag is none of the four known ones leaves
the whole state unchanged and produces no error. -/
theorem scanStep_unknown_tag (d : Nat) (st : ScanState) (line : GoStr)
    (h5 : 5 ≤ line.length) (hm : hasPrefix line (str "... ") = true)
    (h1 : hasPrefix (line.drop 4) (str "depotFile") = false)
    (h2 : hasPrefix (line.drop 4) (str "action") = false)
    (h3 : hasPrefix (line.drop 4) (str "change") = false)
    (h4 : hasPrefix (line.drop 4) (str "type") = false) :
    scanStep d st line = .ok st := by
  have hl : ¬ line.length = 0 := by omega
  have hb : ¬ (line.length < 5 ∨ hasPrefix line (str "... ") = false) := by
    push_neg
    exact ⟨by omega, by simp [hm]⟩
  simp [scanStep, hl, hb, h1, h2, h3, h4]

/-- Stream-level record count: on success, `out` grew by exactly the number
of blank-line boundaries that closed a record with a non-empty `Path`. -/
theorem scanLines_out_length (d : Nat) (ls : List GoStr) (st st' : ScanState)
    (h : scanLines d st ls = .ok st') :
    st'.out.length = st.out.length + boundaryEmits d st ls := by
  induction ls generalizing st with
  | nil => cases h; simp [boundaryEmits]
  | cons l rest ih =>
    unfold scanLines at h
    cases hstep : scanLine d st l with
    | error e => rw [hstep] at h; exact ScanResult.noConfusion h
    | ok st1 =>
      rw [hstep] at h
      have h1 := scanStep_out_length d st (trimSpace l) st1 hstep
      have h2 := ih st1 h
      unfold boundaryEmits
      simp only [hstep]
      rw [h2, h1]
      omega

/-- Suffix-passing form of the `prefixScan` loop: the distance the index
travels from `i`, read off the suffix `line.drop i`. -/
def scanOff : GoStr → Nat → Nat
  | _, 0 => 0
  | s, d + 1 =>
    match slashIdx s with
    | some n => n + 1 + scanOff (s.drop (n + 1)) d
    | none => scanOff s d

theorem prefixScan_eq_scanOff (d : Nat) (line : GoStr) (i : Nat) :
    prefixScan line i d = i + scanOff (line.drop i) d := by
  induction d generalizing i with
  | zero => simp [prefixScan, scanOff]
  | succ d ih =>
    cases hsl : slashIdx (line.drop i) with
    | none => simp [prefixScan, scanOff, hsl, ih i]
    | some n =>
      have hdd : (line.drop i).drop (n + 1) = line.drop (i + n + 1) := by
        rw [List.drop_drop]
        congr 1
      simp only [prefixScan, scanOff, hsl, ih (i + n + 1), hdd]
      omega

theorem slashIdx_isSome_of_count {s : GoStr} (h : 0 < s.count '/') :
    ∃ n, slashIdx s = some n := by
  induction s with
  | nil => simp [List.count_nil] at h
  | cons c t ih =>
    by_cases hc : c = '/'
    · exact ⟨0, by simp [slashIdx, hc]⟩
    · have : 0 < t.count '/' := by
        rw [List.count_cons] at h
        simpa [hc] using h
      obtain ⟨n, hn⟩ := ih this
      exact ⟨n + 1, by simp [slashIdx, hc, hn]⟩

theorem slashIdx_count {s : GoStr} {n : Nat} (h : slashIdx s = some n) :
    (s.drop (n + 1)).count '/' + 1 = s.count '/' := by
  induction s generalizing n with
  | nil => simp [slashIdx] at h
  | cons c t ih =>
    by_cases hc : c = '/'
    · simp only [slashIdx, hc, if_true, Option.some.injEq] at h
      subst h
      simp [hc, List.count_cons]
    · simp only [slashIdx, hc, if_false] at h
      cases hm : slashIdx t with
      | none => rw [hm] at h; simp at h
      | some m =>
        rw [hm] at h
        have hnm : n = m + 1 := by simpa using h.symm
        subst hnm
        have := ih hm
        simp only [List.drop_succ_cons, List.count_cons]
        simp only [List.drop_succ_cons] at this
        simp [hc, ← this]

theorem scanOff_take : ∀ (d : Nat) (s : GoStr), d ≤ s.count '/' →
    s.take (scanOff s d) = specSegs d s
  | 0, s, _ => by simp [scanOff, specSegs]
  | d + 1, s, h => by
    obtain ⟨n, hn⟩ := slashIdx_isSome_of_count (lt_of_lt_of_le (Nat.succ_pos d) h)
    have hcnt : d ≤ (s.drop (n + 1)).count '/' := by
      have := slashIdx_count hn
      omega
    simp only [scanOff, specSegs, hn]
    rw [List.take_add, scanOff_take d (s.drop (n + 1)) hcnt]

/-- `getDepotPrefix` computes `"//"` followed by the first `d` slash-terminated
segments, whenever the path has at least `d` slashes after the root marker. -/
theorem getDepotPrefix_segments (rest : GoStr) (d : Nat) (h : d ≤ rest.count '/') :
    getDepotPrefix ('/' :: '/' :: rest) d = .ok ('/' :: '/' :: specSegs d rest) := by
  have hpre : hasPrefix ('/' :: '/' :: rest) (str "//") = true := by
    simp [hasPrefix, str, List.isPrefixOf]
  simp only [getDepotPrefix, hpre]
  rw [if_neg (by simp)]
  have hscan : prefixScan ('/' :: '/' :: rest) 2 d = 2 + scanOff rest d := by
    rw [prefixScan_eq_scanOff]
    rfl
  rw [hscan]
  have h2 : 2 + scanOff rest d = (scanOff rest d + 1) + 1 := by omega
  rw [h2]
  simp only [List.take_succ_cons]
  rw [scanOff_take d rest h]

theorem length_le_of_hasPrefix {s p : GoStr} (h : hasPrefix s p = true) :
    p.length ≤ s.length := by
  rw [hasPrefix, List.isPrefixOf_iff_prefix] at h
  exact h.length_le

/-- The orchestrator's first error source: whatever `s.Err()` reports is
returned, wrapped, whatever the producer reported. -/
theorem runAndParse_scanError (cmd : GoStr) (d : Nat) (lines : List GoStr) (fn : Bool)
    (cmdErr : Option GoStr) (e : GoStr)
    (hflag : ¬(containsSub cmd (str "-ztag") = false ∧ containsSub cmd (str "-z tag") = false))
    (h : scanErr (scanLines d initialState lines) fn = some e) :
    runAndParseDepotFiles cmd (.ok d) lines fn cmdErr =
      .error (str "error scanning for files: " ++ e) := by
  unfold runAndParseDepotFiles finishRun
  rw [if_neg hflag]
  simp [h]

/-- With `s.Err()` nil, the producer's completion error is returned, wrapped. -/
theorem runAndParse_cmdError (cmd : GoStr) (d : Nat) (lines : List GoStr) (fn : Bool)
    (c : GoStr)
    (hflag : ¬(containsSub cmd (str "-ztag") = false ∧ containsSub cmd (str "-z tag") = false))
    (h : scanErr (scanLines d initialState lines) fn = none) :
    runAndParseDepotFiles cmd (.ok d) lines fn (some c) =
      .error (str "error listing files: " ++ c) := by
  unfold runAndParseDepotFiles finishRun
  rw [if_neg hflag]
  simp [h]

/-- With `s.Err()` nil and a clean producer, the sorted records are returned. -/
theorem runAndParse_success (cmd : GoStr) (d : Nat) (lines : List GoStr) (fn : Bool)
    (hflag : ¬(containsSub cmd (str "-ztag") = false ∧ containsSub cmd (str "-z tag") = false))
    (h : scanErr (scanLines d initialState lines) fn = none) :
    runAndParseDepotFiles cmd (.ok d) lines fn none =
      .ok (sortDepotFiles (scanFinalState (scanLines d initialState lines)).out) := by
  unfold runAndParseDepotFiles finishRun
  rw [if_neg hflag]
  simp [h]

/-! ### Claim theorems -/

/-- C1: the claim (with the spec) requires a mid-stream malformed line to
abort with a protocol error whose text includes the offending line, and no
records. The program loses both: `r.CloseWithError` delivers the protocol
message to the pipe's writes, the scanner's own next read fails with
`io.ErrClosedPipe`, and the returned error is the constant closed-pipe text,
which does not contain the line; and a malformed final line not followed by
a newline is emitted only after EOF was already recorded, so the abort is
invisible and the previously accumulated records are returned with no error
at all. -/
theorem C1_offending_line_lost :
    runAndParseDepotFiles (str "p4 -ztag files") (.ok 1) [str "garbage!"] true none =
      .error (str "error scanning for files: io: read/write on closed pipe") ∧
    containsSub (str "error scanning for files: io: read/write on closed pipe")
      (trimSpace (str "garbage!")) = false ∧
    runAndParseDepotFiles (str "p4 -ztag files") (.ok 1)
        [str "... depotFile //depot/a.cpp", str "", str "garbage!"] false none =
      .ok [{ Path := str "a.cpp", Action := [], CL := [], Typ := [] }] :=
  ⟨by rfl, by decide, by rfl⟩

/-- C2: whenever the tokenizer recorded a scanning error (`s.Err()` non-nil),
that error is returned wrapped and the producer's completion error is
discarded even if present; with a clean `s.Err()`, a present producer error
is returned wrapped; and exactly when neither reported an error, the
accumulated records are returned sorted. -/
theorem C2_error_precedence (cmd : GoStr) (d : Nat) (lines : List GoStr) (fn : Bool)
    (cmdErr : Option GoStr)
    (hflag : ¬(containsSub cmd (str "-ztag") = false ∧ containsSub cmd (str "-z tag") = false)) :
    (∀ e, scanErr (scanLines d initialState lines) fn = some e →
        runAndParseDepotFiles cmd (.ok d) lines fn cmdErr =
          .error (str "error scanning for files: " ++ e)) ∧
    (∀ c, scanErr (scanLines d initialState lines) fn = none → cmdErr = some c →
        runAndParseDepotFiles cmd (.ok d) lines fn cmdErr =
          .error (str "error listing files: " ++ c)) ∧
    (scanErr (scanLines d initialState lines) fn = none → cmdErr = none →
        runAndParseDepotFiles cmd (.ok d) lines fn cmdErr =
          .ok (sortDepotFiles (scanFinalState (scanLines d initialState lines)).out)) :=
  ⟨fun e h => runAndParse_scanError cmd d lines fn cmdErr e hflag h,
   fun c h hc => hc ▸ runAndParse_cmdError cmd d lines fn c hflag h,
   fun h hc => hc ▸ runAndParse_success cmd d lines fn hflag h⟩

/-- Witness for C2: a malformed stream together with a producer failure; the
scanner's error wins. -/
theorem C2_witness :
    runAndParseDepotFiles (str "p4 -ztag files") (.ok 1) [str "bad!"] true
        (some (str "exit status 1")) =
      .error (str "error scanning for files: " ++ str "io: read/write on closed pipe") :=
  (C2_error_precedence (str "p4 -ztag files") 1 [str "bad!"] true
    (some (str "exit status 1")) (by decide)).1 _ (by rfl)

/-- C3: for a path `"//" ++ rest` with at least `d` slashes after the root
marker, the depot prefix is `"//"` followed by the first `d` slash-terminated
segments; depth 2 on `"//depot/main/Engine/foo.cpp"` gives
`"//depot/main/"`, and the stored `Path` of that record is
`"Engine/foo.cpp"`; any input not starting with `"//"` is a format error. -/
theorem C3_depot_prefix :
    (∀ (rest : GoStr) (d : Nat), d ≤ rest.count '/' →
        getDepotPrefix ('/' :: '/' :: rest) d = .ok ('/' :: '/' :: specSegs d rest)) ∧
    getDepotPrefix (str "//depot/main/Engine/foo.cpp") 2 = .ok (str "//depot/main/") ∧
    runAndParseDepotFiles (str "-ztag") (.ok 2)
        [str "... depotFile //depot/main/Engine/foo.cpp", str ""] true none =
      .ok [{ Path := str "Engine/foo.cpp", Action := [], CL := [], Typ := [] }] ∧
    (∀ (s : GoStr) (d : Nat), hasPrefix s (str "//") = false →
        getDepotPrefix s d =
          .error (str "line \"" ++ s ++ str "\" does not begin with \"//\"")) :=
  ⟨fun rest d h => getDepotPrefix_segments rest d h,
   by rfl,
   by rfl,
   fun s d h => by simp [getDepotPrefix, h]⟩

/-- C4, counterexample to the claim as stated: the well-formed line
`"... changes 5"` has tag name `changes`, which is not one of the four
recognized tags, yet the prefix dispatch treats it as `change` and sets
`CL = "s 5"` — the line is not silently ignored. -/
theorem C4_counterexample :
    scanLine 1 initialState (str "... changes 5") =
      .ok { out := [], cur := { Path := [], Action := [], CL := str "s 5", Typ := [] }
            pfx := [] } ∧
    ({ out := [], cur := { Path := [], Action := [], CL := str "s 5", Typ := [] }
       pfx := [] } : ScanState) ≠ initialState :=
  ⟨by rfl, by decide⟩

/-- C4 (amended): a well-formed marker line whose tag region does not
*begin with* any of `depotFile`, `action`, `change`, `type` is silently
ignored: the state is unchanged, no error is produced, and scanning
continues with the rest of the stream. (The code dispatches by
`strings.HasPrefix`, so a tag that merely extends a recognized name, such as
`changes`, is treated as that tag rather than ignored.) -/
theorem C4_unknown_tag_ignored (d : Nat) (st : ScanState) (l : GoStr)
    (h5 : 5 ≤ (trimSpace l).length)
    (hm : hasPrefix (trimSpace l) (str "... ") = true)
    (h1 : hasPrefix ((trimSpace l).drop 4) (str "depotFile") = false)
    (h2 : hasPrefix ((trimSpace l).drop 4) (str "action") = false)
    (h3 : hasPrefix ((trimSpace l).drop 4) (str "change") = false)
    (h4 : hasPrefix ((trimSpace l).drop 4) (str "type") = false) :
    scanLine d st l = .ok st ∧ ∀ ls, scanLines d st (l :: ls) = scanLines d st ls := by
  have h := scanStep_unknown_tag d st (trimSpace l) h5 hm h1 h2 h3 h4
  refine ⟨h, fun ls => ?_⟩
  simp [scanLines, scanLine, h]

/-- Witness for C4: the unknown tag `fileSize` is ignored. -/
theorem C4_witness :
    scanLine 1 initialState (str "... fileSize 12345") = .ok initialState :=
  (C4_unknown_tag_ignored 1 initialState (str "... fileSize 12345")
    (by decide) (by decide) (by decide) (by decide) (by decide) (by decide)).1

/-- C5: the claim that recognized-tag value extraction never reads past the
end of the line fails: the 13-byte line `"... depotFile"` passes the marker
and tag checks, and the `depotFile` branch then slices `line[14:]`, one past
the end — a panic in Go. The conjunct characterizes the failure: an
out-of-bounds slice happens only on a `depotFile` line of length exactly 13;
the `action`, `change` and `type` offsets are always in bounds. -/
theorem C5_depotFile_slice_oob :
    sliceOOB (str "... depotFile") = true ∧
    ∀ line, sliceOOB line = true →
      hasPrefix (line.drop 4) (str "depotFile") = true ∧ line.length = 13 := by
  refine ⟨by decide, ?_⟩
  intro line h
  unfold sliceOOB at h
  split at h
  · exact Bool.noConfusion h
  · split at h
    · exact Bool.noConfusion h
    · rename_i hbad
      push_neg at hbad
      split at h
      · rename_i htag
        have h9 := length_le_of_hasPrefix htag
        have hdrop : (line.drop 4).length = line.length - 4 := List.length_drop 4 line
        have h14 : line.length < 14 := by simpa using h
        refine ⟨htag, ?_⟩
        have h5 : 5 ≤ line.length := hbad.1
        simp [str] at h9
        omega
      · split at h
        · rename_i htag
          have h6 := length_le_of_hasPrefix htag
          have hdrop : (line.drop 4).length = line.length - 4 := List.length_drop 4 line
          have h10 : line.length < 10 := by simpa using h
          have h5 : 5 ≤ line.length := hbad.1
          simp [str] at h6
          omega
        · split at h
          · rename_i htag
            have h6 := length_le_of_hasPrefix htag
            have hdrop : (line.drop 4).length = line.length - 4 := List.length_drop 4 line
            have h10 : line.length < 10 := by simpa using h
            have h5 : 5 ≤ line.length := hbad.1
            simp [str] at h6
            omega
          · split at h
            · rename_i htag
              have h4 := length_le_of_hasPrefix htag
              have hdrop : (line.drop 4).length = line.length - 4 := List.length_drop 4 line
              have h8 : line.length < 8 := by simpa using h
              have h5 : 5 ≤ line.length := hbad.1
              simp [str] at h4
              omega
            · exact Bool.noConfusion h

/-- C6: records join the output only at blank-line boundaries and only with a
non-empty `Path`; the in-progress record is reset unconditionally at every
blank line; and on success the output size equals the number of
blank-line-terminated records whose `Path` ended up non-empty (empty ones are
silently discarded, never errored). -/
theorem C6_record_boundaries :
    (∀ (d : Nat) (st : ScanState) (l : GoStr), trimSpace l = [] →
        scanLine d st l =
          .ok { out := if st.cur.Path.length ≠ 0 then st.out ++ [st.cur] else st.out
                cur := DepotFile.empty
                pfx := st.pfx }) ∧
    (∀ (d : Nat) (st : ScanState) (l : GoStr) (st' : ScanState), trimSpace l ≠ [] →
        scanLine d st l = .ok st' → st'.out = st.out) ∧
    (∀ (d : Nat) (ls : List GoStr) (st' : ScanState),
        scanLines d initialState ls = .ok st' →
        st'.out.length = boundaryEmits d initialState ls) :=
  ⟨fun d st l h => scanStep_blank d st (trimSpace l) h,
   fun d st l st' h1 h2 => scanStep_out_nonblank d st (trimSpace l) st' h1 h2,
   fun d ls st' h => by
     have := scanLines_out_length d ls initialState st' h
     simpa [initialState] using this⟩

theorem sortDepotFiles_chain' (l : List DepotFile) :
    (sortDepotFiles l).Chain' (fun a b => leStr (toLowerStr a.Path) (toLowerStr b.Path) = true) := by
  have hs : List.Sorted depotFileLe (sortDepotFiles l) :=
    List.sorted_insertionSort depotFileLe l
  have hchain := List.Pairwise.chain' hs
  refine hchain.imp ?_
  intro a b hab
  rw [leStr_eq_not_ltStr]
  unfold depotFileLe lessPath at hab
  simp [hab]

/-- C7: every successfully returned collection is ordered by case-insensitive
path comparison: for each adjacent pair, the lowercased `Path` of the earlier
record is `<=` that of the later one. -/
theorem C7_output_sorted (cmd : GoStr) (dres : Except GoStr Nat) (lines : List GoStr)
    (fn : Bool) (cmdErr : Option GoStr) (out : List DepotFile)
    (h : runAndParseDepotFiles cmd dres lines fn cmdErr = .ok out) :
    out.Chain' (fun a b => leStr (toLowerStr a.Path) (toLowerStr b.Path) = true) := by
  unfold runAndParseDepotFiles finishRun at h
  repeat' split at h
  any_goals exact Except.noConfusion h
  all_goals cases h
  all_goals exact sortDepotFiles_chain' _

/-- Witness for C7: a run whose two records come back sorted
case-insensitively (`apple.txt` before `Zebra.txt`). -/
theorem C7_witness :
    List.Chain' (fun (a b : DepotFile) => leStr (toLowerStr a.Path) (toLowerStr b.Path) = true)
      [{ Path := str "apple.txt", Action := [], CL := [], Typ := [] },
       { Path := str "Zebra.txt", Action := [], CL := [], Typ := [] }] :=
  C7_output_sorted (str "-ztag") (.ok 1)
    [str "... depotFile //depot/Zebra.txt", str "",
     str "... depotFile //depot/apple.txt", str ""] true none
    [{ Path := str "apple.txt", Action := [], CL := [], Typ := [] },
     { Path := str "Zebra.txt", Action := [], CL := [], Typ := [] }] (by rfl)

/-- C8: a trailing run of non-blank field lines (a partial record not closed
by a blank line) contributes nothing to the output; in particular the spec's
example ends with a dropped record and yields zero records. -/
theorem C8_trailing_record_dropped :
    (∀ (d : Nat) (tail : List GoStr) (st st' : ScanState),
        (∀ l ∈ tail, trimSpace l ≠ []) →
        scanLines d st tail = .ok st' → st'.out = st.out) ∧
    runAndParseDepotFiles (str "-ztag") (.ok 2)
        [str "... depotFile //depot/main/a.cpp", str "... action edit"] true none = .ok [] := by
  constructor
  · intro d tail
    induction tail with
    | nil => intro st st' _ h; cases h; rfl
    | cons l ls ih =>
      intro st st' hne h
      unfold scanLines at h
      cases hstep : scanLine d st l with
      | error e => rw [hstep] at h; exact ScanResult.noConfusion h
      | ok st1 =>
        rw [hstep] at h
        have h1 : st1.out = st.out :=
          scanStep_out_nonblank d st (trimSpace l) st1 (hne l (by simp)) hstep
        rw [ih st1 st' (fun x hx => hne x (by simp [hx])) h, h1]
  · rfl

/-- C9: a command string containing neither `"-ztag"` nor `"-z tag"` is
rejected with the configuration error immediately: the result is the same
whatever the stream-depth lookup, the command's output or the producer's
completion error would have been, so nothing else runs first. -/
theorem C9_missing_flag (cmd : GoStr) (dres : Except GoStr Nat) (lines : List GoStr)
    (fn : Bool) (cmdErr : Option GoStr)
    (h : containsSub cmd (str "-ztag") = false ∧ containsSub cmd (str "-z tag") = false) :
    runAndParseDepotFiles cmd dres lines fn cmdErr =
      .error (str "missing \"-z tag\" in cmd: " ++ cmd) := by
  unfold runAndParseDepotFiles
  rw [if_pos h]

/-- Witness for C9: the spec's example command, with a failing depth lookup
that is never consulted. -/
theorem C9_witness :
    runAndParseDepotFiles (str "p4 files //depot/...") (.error (str "depth lookup failed"))
        [] true none =
      .error (str "missing \"-z tag\" in cmd: " ++ str "p4 files //depot/...") :=
  C9_missing_flag (str "p4 files //depot/...") (.error (str "depth lookup failed")) [] true
    none (by decide)

/-- C10: the depot prefix is computed lazily exactly once: a resolved prefix
is never changed; the only step that sets it is the first recognized
`depotFile` line, via `getDepotPrefix` on that line's raw path; every
subsequent `depotFile` line stores the raw path with the stored prefix
stripped (and unchanged, with no error, when the raw path does not begin
with the prefix). -/
theorem C10_prefix_lazy_once :
    (∀ (d : Nat) (st : ScanState) (l : GoStr) (st' : ScanState), st.pfx ≠ [] →
        scanLine d st l = .ok st' → st'.pfx = st.pfx) ∧
    (∀ (d : Nat) (st : ScanState) (l : GoStr) (st' : ScanState),
        scanLine d st l = .ok st' → st'.pfx ≠ st.pfx →
        st.pfx = [] ∧ isDepotFileLine (trimSpace l) = true ∧
          getDepotPrefix (rawOf (trimSpace l)) d = .ok st'.pfx) ∧
    (∀ (d : Nat) (st : ScanState) (l : GoStr), st.pfx ≠ [] →
        isDepotFileLine (trimSpace l) = true →
        scanLine d st l =
          .ok { st with cur := { st.cur with
                  Path := trimPrefix (rawOf (trimSpace l)) st.pfx } }) ∧
    (∀ (raw p : GoStr),
        (hasPrefix raw p = true → trimPrefix raw p = raw.drop p.length) ∧
        (hasPrefix raw p = false → trimPrefix raw p = raw)) :=
  ⟨fun d st l st' hp h => scanStep_pfx_stable d st (trimSpace l) st' hp h,
   fun d st l st' h hne => scanStep_pfx_set d st (trimSpace l) st' h hne,
   fun d st l hp hl => scanStep_depotFile_subsequent d st (trimSpace l) hp hl,
   fun raw p => ⟨fun h => by simp [trimPrefix, h], fun h => by simp [trimPrefix, h]⟩⟩

end P4
